import Mathlib

/-
Verification of the text-region compositing engine of the manga_detection
repository (src/inpainting.py, class TextInpainter).

The Python code is shallowly embedded as executable Lean definitions:
  - PIL images are rasters of RGB pixels (lists of rows of pixels);
    machine byte channels stay in Nat (values are kept in range by the
    PIL compositing formulas themselves).
  - The glyph backend (PIL fonts) is abstracted as a function from a
    string to its bounding box (font.getbbox); the font loader
    ImageFont.truetype is an abstract resolver parameter.
  - The process-lifetime font cache (self.fonts_cache, a dict keyed by
    the string f"{family}_{size}") is modelled as an association list
    keyed by the pair (family, size); the string key is in bijection
    with the pair, because the size suffix after the final underscore
    consists of decimal digits only.
  - The text rasterizer ImageDraw.multiline_text is an abstract draw
    backend; it may fail (Except), modelling per-region render
    exceptions of the backend.
  - Python floats for the transparency setting are modelled as rational
    numbers; the claims evaluate it at 0.5, where binary floating point
    is exact, and int() is truncation toward zero (alpha255 below).
  - Dictionary access result["bbox"] / result["translated_text"] can
    raise KeyError; the region record stores both as Option and the
    region compositor returns Except, the error being the KeyError.
-/

set_option autoImplicit false

namespace MangaInpaint

/-- One 8-bit-per-channel RGB pixel, as in a PIL image of mode RGB. -/
structure RGB where
  r : Nat
  g : Nat
  b : Nat
deriving DecidableEq

/-- A raster image: a list of rows of RGB pixels (PIL mode-RGB buffer). -/
structure Img where
  pixels : List (List RGB)
deriving DecidableEq

/-- A region rectangle, the four integers of result["bbox"]: x1, y1, x2, y2. -/
structure Rect where
  x1 : Int
  y1 : Int
  x2 : Int
  y2 : Int
deriving DecidableEq

/-- A text bounding box as returned by PIL font.getbbox and by
TextInpainter._get_text_bbox: the tuple (x0, y0, x1, y1); index 2 minus
index 0 is the width, index 3 minus index 1 the height. -/
structure TextBBox where
  x0 : Int
  y0 : Int
  x1 : Int
  y1 : Int
deriving DecidableEq

/-- An abstract resolved font handle: all the compositor ever asks of a
PIL font is font.getbbox(text). -/
def FontMetrics := String → TextBBox

/-- Abstract font resolver: what ImageFont.truetype / load_default yield
for a family name and a pixel size (TextInpainter._get_font without its
cache; the fallback chain always produces some handle). -/
def Resolve := String → Nat → FontMetrics

/-- The process-lifetime font cache self.fonts_cache.  Python keys it by
the string f"{family}_{size}"; since the size suffix is digits only, the
key is in bijection with the pair (family, size), which we use directly. -/
def FontCache := List ((String × Nat) × FontMetrics)

/-- Dictionary lookup in the font cache. -/
def cacheLookup : FontCache → String → Nat → Option FontMetrics
  | [], _, _ => none
  | (k, f) :: rest, fam, sz =>
    if k.1 = fam ∧ k.2 = sz then some f else cacheLookup rest fam sz

/-- TextInpainter._get_font: look the (family, size) key up in the cache;
on a miss resolve the font and store it.  Returns the font together with
the updated cache (the Python method mutates self.fonts_cache). -/
def get_font (r : Resolve) (c : FontCache) (fam : String) (sz : Nat) :
    FontMetrics × FontCache :=
  match cacheLookup c fam sz with
  | some f => (f, c)
  | none => (r fam sz, ((fam, sz), r fam sz) :: c)

/-- A font cache is coherent with the resolver when every cached entry is
what the resolver would produce.  Every cache reachable from the empty
cache of a fresh TextInpainter is coherent. -/
def Coherent (r : Resolve) (c : FontCache) : Prop :=
  ∀ fam sz f, cacheLookup c fam sz = some f → f = r fam sz

/-- The image mode PIL decodes a file into (Image.open without convert). -/
inductive Mode
  | rgb
  | rgba
  | lum
  | pal
deriving DecidableEq

/-- Channel count of the numpy array obtained from an image of the given
mode (mode L and P decode to a single plane). -/
def Mode.channels : Mode → Nat
  | .rgb => 3
  | .rgba => 4
  | .lum => 1
  | .pal => 1

/-- The image file at image_path: the mode Image.open decodes it to, and
its pixel content after .convert("RGB"). -/
structure SourceImage where
  mode : Mode
  rgb : Img

/-- The numpy array returned by inpaint_and_replace_text: its channel
count (the last dimension of np.array of a PIL image) and, for mode-RGB
data, the raster itself. -/
structure NDArray where
  channels : Nat
  data : Img
deriving DecidableEq

/-- Abstract rasterizer for ImageDraw.multiline_text: image, xy position,
text, font, fill color, align.  Except models a backend render failure. -/
def DrawBackend :=
  Img → Int × Int → String → FontMetrics → RGB → String → Except String Img

/-- The settings dictionary of TextInpainter (all keys that
_get_default_settings populates). -/
structure Settings where
  font_family : String
  font_size : Nat
  font_color : RGB
  bg_color : RGB
  stroke_width : Nat
  stroke_color : RGB
  padding : Nat
  alignment : String
  transparency : ℚ
  auto_font_size : Bool

/-- A caller-supplied text_settings dictionary: any subset of the
recognized keys may be present. -/
structure SettingsOverride where
  font_family : Option String
  font_size : Option Nat
  font_color : Option RGB
  bg_color : Option RGB
  stroke_width : Option Nat
  stroke_color : Option RGB
  padding : Option Nat
  alignment : Option String
  transparency : Option ℚ
  auto_font_size : Option Bool

/-- One entry of the results list: the keys read by the compositor.
Option models the possibility that a key is absent from the dict, in
which case the subscript access raises KeyError. -/
structure RegionResult where
  bbox : Option Rect
  translated_text : Option String

/-- TextInpainter._get_default_settings. -/
def get_default_settings : Settings :=
  ⟨"arial", 16, ⟨0, 0, 0⟩, ⟨255, 255, 255⟩, 0, ⟨0, 0, 0⟩, 5, "center", 1, true⟩

/-- settings.update(text_settings): every key present in the caller's
dictionary overwrites the corresponding default in the fresh copy. -/
def dictUpdate (base : Settings) (o : SettingsOverride) : Settings :=
  ⟨o.font_family.getD base.font_family,
   o.font_size.getD base.font_size,
   o.font_color.getD base.font_color,
   o.bg_color.getD base.bg_color,
   o.stroke_width.getD base.stroke_width,
   o.stroke_color.getD base.stroke_color,
   o.padding.getD base.padding,
   o.alignment.getD base.alignment,
   o.transparency.getD base.transparency,
   o.auto_font_size.getD base.auto_font_size⟩

/-- The settings actually used by inpaint_and_replace_text: a fresh copy
of the defaults, updated with the caller's entries when text_settings is
given (None, like the empty dict, leaves the defaults). -/
def effective_settings (ts : Option SettingsOverride) : Settings :=
  match ts with
  | none => get_default_settings
  | some o => dictUpdate get_default_settings o

/-- Python str.strip() produces the empty string exactly when every
character is whitespace; "if not text.strip()" tests this. -/
def isBlank (t : String) : Bool := t.data.all Char.isWhitespace

/-- Python text.split() with no separator: split on whitespace runs,
discarding empty pieces.  The accumulator holds the current word
reversed. -/
def pySplitAux : List Char → List Char → List String
  | [], [] => []
  | [], cur => [String.mk cur.reverse]
  | ch :: rest, cur =>
    if ch.isWhitespace then
      if cur = [] then pySplitAux rest []
      else String.mk cur.reverse :: pySplitAux rest []
    else pySplitAux rest (ch :: cur)

/-- Python text.split() with no separator. -/
def pySplit (t : String) : List String := pySplitAux t.data []

/-- Python text.split(chr(10)): split at every newline, keeping empty
pieces; the split of the empty string is one empty piece. -/
def splitNlAux : List Char → List Char → List String
  | [], cur => [String.mk cur.reverse]
  | ch :: rest, cur =>
    if ch = '\n' then String.mk cur.reverse :: splitNlAux rest []
    else splitNlAux rest (ch :: cur)

/-- Python text.split(chr(10)). -/
def splitNl (t : String) : List String := splitNlAux t.data []

/-- Measured width of one line of text: getbbox index 2 minus index 0,
as computed in _wrap_text. -/
def lineWidth (font : FontMetrics) (t : String) : Int :=
  (font t).x1 - (font t).x0

/-- The word-accumulation loop of TextInpainter._wrap_text, producing the
word list of each output line.  current_line is the list of words of the
line under construction. -/
def wrapLoop (font : FontMetrics) (maxWidth : Int) :
    List String → List String → List (List String)
  | [], currentLine => if currentLine.isEmpty then [] else [currentLine]
  | word :: rest, currentLine =>
    let testLine := currentLine ++ [word]
    let testText := " ".intercalate testLine
    if lineWidth font testText ≤ maxWidth then
      wrapLoop font maxWidth rest testLine
    else
      if currentLine.isEmpty then
        [word] :: wrapLoop font maxWidth rest []
      else
        currentLine :: wrapLoop font maxWidth rest [word]

/-- The lines produced by _wrap_text, as word lists. -/
def wrapLines (font : FontMetrics) (text : String) (maxWidth : Int) :
    List (List String) :=
  wrapLoop font maxWidth (pySplit text) []

/-- TextInpainter._wrap_text: greedy word wrap, returning the lines
joined with newlines. -/
def wrap_text (font : FontMetrics) (text : String) (maxWidth : Int) : String :=
  "\n".intercalate ((wrapLines font text maxWidth).map (" ".intercalate ·))

/-- TextInpainter._get_text_bbox: overall width is the maximum line
width, overall height the sum of the per-line heights. -/
def get_text_bbox (font : FontMetrics) (text : String) : TextBBox :=
  let acc := (splitNl text).foldl
    (fun (acc : Int × Int) line =>
      let bb := font line
      (max acc.1 (bb.x1 - bb.x0), acc.2 + (bb.y1 - bb.y0)))
    (0, 0)
  ⟨0, 0, acc.1, acc.2⟩

/-- TextInpainter._calculate_text_position: vertical centering and
horizontal alignment, both clamped into the padded rectangle.
Python // is floor division, Int.fdiv. -/
def calculate_text_position (font : FontMetrics) (text : String)
    (bb : Rect) (s : Settings) : Int × Int :=
  let width := bb.x2 - bb.x1
  let height := bb.y2 - bb.y1
  let p : Int := s.padding
  let tb := get_text_bbox font text
  let textWidth := tb.x1
  let textHeight := tb.y1
  let ty := bb.y1 + Int.fdiv (height - textHeight) 2
  let tx :=
    if s.alignment = "center" then bb.x1 + Int.fdiv (width - textWidth) 2
    else if s.alignment = "right" then bb.x2 - textWidth - p
    else bb.x1 + p
  (max (bb.x1 + p) (min tx (bb.x2 - textWidth - p)),
   max (bb.y1 + p) (min ty (bb.y2 - textHeight - p)))

/-- Python int(255 * t) for a rational t: the value 255 * t is the
fraction (255 * num) / den, and int() truncates toward zero, which is
T-division of the numerator by the (positive) denominator.  (Negative
results, impossible for transparency in [0, 1], clamp at 0 in toNat.) -/
def alpha255 (t : ℚ) : Nat := ((255 * t.num).tdiv (t.den : Int)).toNat

/-- The exact-division-by-255 shift trick of PIL's AlphaComposite.c. -/
def shiftForDiv255 (n : Nat) : Nat := ((n >>> 8) + n) >>> 8

/-- One channel of PIL Image.alpha_composite for an opaque destination
(the image was converted RGB to RGBA, so its alpha is 255).  In that case
outa255 in AlphaComposite.c is 255 * 255 and the coefficients reduce to
coef1 = srcA * 128 and coef2 = (255 - srcA) * 128 with PRECISION_BITS 7. -/
def compositeChannel (srcA srcC dstC : Nat) : Nat :=
  let coef1 := srcA * 128
  let coef2 := 255 * 128 - coef1
  shiftForDiv255 (srcC * coef1 + dstC * coef2 + 128 * 128) >>> 7

/-- PIL Image.alpha_composite on one pixel, destination opaque.  PIL
short-circuits a fully transparent source pixel to the destination. -/
def alphaCompositePixel (src : RGB) (srcA : Nat) (dst : RGB) : RGB :=
  if srcA = 0 then dst
  else
    ⟨compositeChannel srcA src.r dst.r,
     compositeChannel srcA src.g dst.g,
     compositeChannel srcA src.b dst.b⟩

/-- Membership of the pixel at integer coordinates (x, y) in the
rectangle drawn by ImageDraw.rectangle([x1, y1, x2, y2]); PIL includes
both corners. -/
def inRect (bb : Rect) (x y : Int) : Bool :=
  bb.x1 ≤ x ∧ x ≤ bb.x2 ∧ bb.y1 ≤ y ∧ y ≤ bb.y2

/-- Map a function over one pixel row, tracking the x coordinate. -/
def mapRowFrom (f : Nat → RGB → RGB) : Nat → List RGB → List RGB
  | _, [] => []
  | x, p :: ps => f x p :: mapRowFrom f (x + 1) ps

/-- Map a coordinate-indexed function over every pixel of the raster. -/
def mapRowsFrom (f : Nat → Nat → RGB → RGB) : Nat → List (List RGB) → List (List RGB)
  | _, [] => []
  | y, row :: rows => mapRowFrom (fun x p => f x y p) 0 row :: mapRowsFrom f (y + 1) rows

/-- Map a coordinate-indexed function over every pixel of an image. -/
def Img.mapPixels (img : Img) (f : Nat → Nat → RGB → RGB) : Img :=
  ⟨mapRowsFrom f 0 img.pixels⟩

/-- The pixel of an image at column x of row y, when in bounds. -/
def Img.getPx (img : Img) (x y : Nat) : Option RGB :=
  match img.pixels[y]? with
  | some row => row[x]?
  | none => none

/-- TextInpainter._inpaint_region: erase the rectangle with the
background color.  With transparency below 1.0 an RGBA overlay holding
the rectangle at alpha int(255 * transparency) is alpha-composited over
the image (outside the rectangle the overlay is fully transparent);
otherwise the rectangle is drawn opaquely. -/
def inpaint_region (img : Img) (bb : Rect) (s : Settings) : Img :=
  if s.transparency < 1 then
    let alpha := alpha255 s.transparency
    img.mapPixels fun x y p =>
      alphaCompositePixel s.bg_color (if inRect bb x y then alpha else 0) p
  else
    img.mapPixels fun x y p => if inRect bb x y then s.bg_color else p

/-- The fit test of _calculate_optimal_font_size for one candidate font:
wrap the text at width - padding * 2 and require the wrapped block to fit
in the padded rectangle (getbbox index 2 and 3 against the two bounds). -/
def fitTest (font : FontMetrics) (text : String) (width height : Int)
    (s : Settings) : Bool :=
  let wrapped := wrap_text font text (width - (s.padding : Int) * 2)
  let bb := get_text_bbox font wrapped
  bb.x1 ≤ width - (s.padding : Int) * 2 ∧ bb.y1 ≤ height - (s.padding : Int) * 2

/-- The fit test at a candidate size, with the font freshly resolved. -/
def fitsAt (r : Resolve) (text : String) (width height : Int) (s : Settings)
    (size : Nat) : Bool :=
  fitTest (r s.font_family size) text width height s

/-- The candidate scan of _calculate_optimal_font_size, threading the
font cache: accept a fitting candidate as the new best and continue;
break at the first candidate that fails. -/
def fontSizeLoop (r : Resolve) (text : String) (width height : Int)
    (s : Settings) : List Nat → FontCache → Nat → Nat × FontCache
  | [], c, best => (best, c)
  | size :: rest, c, best =>
    let fc := get_font r c s.font_family size
    if fitTest fc.1 text width height s then
      fontSizeLoop r text width height s rest fc.2 size
    else (best, fc.2)

/-- The ceiling min(width // 2, height // 2, 48) of the candidate scan
(Python // is floor division). -/
def fontSizeCeiling (width height : Int) : Int :=
  min (Int.fdiv width 2) (min (Int.fdiv height 2) 48)

/-- The candidate list range(8, ceiling + 1, 2). -/
def fontSizeCandidates (width height : Int) : List Nat :=
  List.range' 8 ((fontSizeCeiling width height - 6).toNat / 2) 2

/-- TextInpainter._calculate_optimal_font_size: if the ceiling is below
the floor 8, return 8; otherwise scan range(8, ceiling + 1, 2), keeping
the last fitting candidate and stopping at the first failure. -/
def calculate_optimal_font_size (r : Resolve) (c : FontCache)
    (text : String) (width height : Int) (s : Settings) : Nat × FontCache :=
  if fontSizeCeiling width height < 8 then (8, c)
  else fontSizeLoop r text width height s (fontSizeCandidates width height) c 8

/-- The font size _insert_text renders with: the requested
settings["font_size"] unless auto_font_size is set, in which case the
solver's choice. -/
def insert_text_font_size (r : Resolve) (c : FontCache) (text : String)
    (width height : Int) (s : Settings) : Nat × FontCache :=
  if s.auto_font_size then calculate_optimal_font_size r c text width height s
  else (s.font_size, c)

/-- The horizontal offsets range(-stroke_width, stroke_width + 1). -/
def strokeRange (w : Nat) : List Int :=
  (List.range (2 * w + 1)).map (fun i => (i : Int) - (w : Int))

/-- The offset grid of _draw_text_with_stroke, dx outer, dy inner. -/
def strokeOffsets (w : Nat) : List (Int × Int) :=
  (strokeRange w).flatMap (fun dx => (strokeRange w).map (fun dy => (dx, dy)))

/-- TextInpainter._draw_text_with_stroke: blit the text at every nonzero
offset of the grid in the stroke color, then once at the origin in the
fill color.  PIL multiline_text is called without align there, so the
backend receives the default left alignment. -/
def draw_text_with_stroke (d : DrawBackend) (img : Img) (x y : Int)
    (text : String) (font : FontMetrics) (fill strokeCol : RGB) (w : Nat) :
    Except String Img := do
  let img ← (strokeOffsets w).foldlM
    (fun im p =>
      if p.1 ≠ 0 ∨ p.2 ≠ 0 then d im (x + p.1, y + p.2) text font strokeCol "left"
      else pure im)
    img
  d img (x, y) text font fill "left"

/-- TextInpainter._insert_text: skip blank text, pick the font size, load
the font, wrap, position, then draw (with stroke when stroke_width is
positive).  Returns the drawn image (or the render error) and the cache. -/
def insert_text (r : Resolve) (d : DrawBackend) (c : FontCache) (img : Img)
    (bb : Rect) (text : String) (s : Settings) :
    Except String Img × FontCache :=
  if isBlank text then (.ok img, c)
  else
    let width := bb.x2 - bb.x1
    let height := bb.y2 - bb.y1
    let szc := insert_text_font_size r c text width height s
    let fc := get_font r szc.2 s.font_family szc.1
    let wrapped := wrap_text fc.1 text (width - (s.padding : Int) * 2)
    let pos := calculate_text_position fc.1 wrapped bb s
    if s.stroke_width > 0 then
      (draw_text_with_stroke d img pos.1 pos.2 wrapped fc.1 s.font_color
        s.stroke_color s.stroke_width, fc.2)
    else
      (d img pos wrapped fc.1 s.font_color s.alignment, fc.2)

/-- TextInpainter._process_text_region: read result["bbox"] and
result["translated_text"] (KeyError when absent), silently skip regions
under 10 pixels in either dimension, then erase and insert. -/
def process_text_region (r : Resolve) (d : DrawBackend) (c : FontCache)
    (img : Img) (res : RegionResult) (s : Settings) :
    Except String Img × FontCache :=
  match res.bbox with
  | none => (.error "KeyError: bbox", c)
  | some bb =>
    match res.translated_text with
    | none => (.error "KeyError: translated_text", c)
    | some text =>
      if bb.x2 - bb.x1 < 10 ∨ bb.y2 - bb.y1 < 10 then (.ok img, c)
      else insert_text r d c (inpaint_region img bb s) bb text s

/-- The region loop of inpaint_and_replace_text: process every result
whose translated_text strips to something nonempty; an exception from a
region is not caught and aborts the loop. -/
def inpaintLoop (r : Resolve) (d : DrawBackend) (s : Settings) :
    List RegionResult → Img → FontCache → Except String Img × FontCache
  | [], img, c => (.ok img, c)
  | res :: rest, img, c =>
    if isBlank (res.translated_text.getD "") then inpaintLoop r d s rest img c
    else
      match process_text_region r d c img res s with
      | (.ok img2, c2) => inpaintLoop r d s rest img2 c2
      | (.error e, c2) => (.error e, c2)

/-- TextInpainter.inpaint_and_replace_text: with no results, the decoded
image in its original mode; otherwise decode, convert to RGB, merge the
settings and run the region loop, returning the painted RGB raster. -/
def inpaint_and_replace_text (r : Resolve) (d : DrawBackend) (c : FontCache)
    (src : SourceImage) (results : List RegionResult)
    (ts : Option SettingsOverride) : Except String NDArray × FontCache :=
  if results.isEmpty then (.ok ⟨src.mode.channels, src.rgb⟩, c)
  else
    let s := effective_settings ts
    match inpaintLoop r d s results src.rgb c with
    | (.ok img, c2) => (.ok ⟨3, img⟩, c2)
    | (.error e, c2) => (.error e, c2)

/-
Cache-free forms of the cache-threading functions.  Each one replaces
every _get_font call by the resolver itself; the refinement lemmas below
prove them equal in value to the threaded embedding whenever the cache is
coherent, which is what makes repeated page composites reproducible.
-/

/-- The candidate scan with the fit test abstracted: keep a fitting
candidate as the new best, break at the first failure. -/
def pureFontLoop (F : Nat → Bool) : List Nat → Nat → Nat
  | [], best => best
  | size :: rest, best => if F size then pureFontLoop F rest size else best

/-- Cache-free form of _calculate_optimal_font_size. -/
def calculate_optimal_font_size_nocache (r : Resolve) (text : String)
    (width height : Int) (s : Settings) : Nat :=
  if fontSizeCeiling width height < 8 then 8
  else pureFontLoop (fitsAt r text width height s) (fontSizeCandidates width height) 8

/-- Cache-free form of the font size used by _insert_text. -/
def insert_text_font_size_nocache (r : Resolve) (text : String)
    (width height : Int) (s : Settings) : Nat :=
  if s.auto_font_size then calculate_optimal_font_size_nocache r text width height s
  else s.font_size

/-- Cache-free form of _insert_text. -/
def insert_text_nocache (r : Resolve) (d : DrawBackend) (img : Img)
    (bb : Rect) (text : String) (s : Settings) : Except String Img :=
  if isBlank text then .ok img
  else
    let width := bb.x2 - bb.x1
    let height := bb.y2 - bb.y1
    let sz := insert_text_font_size_nocache r text width height s
    let font := r s.font_family sz
    let wrapped := wrap_text font text (width - (s.padding : Int) * 2)
    let pos := calculate_text_position font wrapped bb s
    if s.stroke_width > 0 then
      draw_text_with_stroke d img pos.1 pos.2 wrapped font s.font_color
        s.stroke_color s.stroke_width
    else d img pos wrapped font s.font_color s.alignment

/-- Cache-free form of _process_text_region. -/
def process_text_region_nocache (r : Resolve) (d : DrawBackend) (img : Img)
    (res : RegionResult) (s : Settings) : Except String Img :=
  match res.bbox with
  | none => .error "KeyError: bbox"
  | some bb =>
    match res.translated_text with
    | none => .error "KeyError: translated_text"
    | some text =>
      if bb.x2 - bb.x1 < 10 ∨ bb.y2 - bb.y1 < 10 then .ok img
      else insert_text_nocache r d (inpaint_region img bb s) bb text s

/-- Cache-free form of the region loop. -/
def inpaintLoop_nocache (r : Resolve) (d : DrawBackend) (s : Settings) :
    List RegionResult → Img → Except String Img
  | [], img => .ok img
  | res :: rest, img =>
    if isBlank (res.translated_text.getD "") then inpaintLoop_nocache r d s rest img
    else
      match process_text_region_nocache r d img res s with
      | .ok img2 => inpaintLoop_nocache r d s rest img2
      | .error e => .error e

/-- Cache-free form of inpaint_and_replace_text. -/
def inpaint_and_replace_text_nocache (r : Resolve) (d : DrawBackend)
    (src : SourceImage) (results : List RegionResult)
    (ts : Option SettingsOverride) : Except String NDArray :=
  if results.isEmpty then .ok ⟨src.mode.channels, src.rgb⟩
  else
    let s := effective_settings ts
    match inpaintLoop_nocache r d s results src.rgb with
    | .ok img => .ok ⟨3, img⟩
    | .error e => .error e

/-
Concrete backends and inputs used by counterexamples and witnesses.
-/

/-- A concrete glyph backend for witnesses: a character is size pixels
wide and a line is size pixels tall. -/
def resolveLen : Resolve :=
  fun _fam sz => fun t => ⟨0, 0, (sz : Int) * (t.length : Int), (sz : Int)⟩

/-- A draw backend that rasterizes nothing (leaves the image as is). -/
def pureDraw : DrawBackend := fun img _ _ _ _ _ => .ok img

/-- A draw backend whose every call fails, modelling a render exception
inside PIL. -/
def failDraw : DrawBackend := fun _ _ _ _ _ _ => .error "render failed"

/-- A one-pixel pure blue image. -/
def bluePixelImg : Img := ⟨[[⟨0, 0, 255⟩]]⟩

/-- A 4 by 4 pure blue image. -/
def blueImg4 : Img :=
  ⟨List.replicate 4 (List.replicate 4 ⟨0, 0, 255⟩)⟩

/-- A source file decoding to mode RGBA whose RGB conversion is the one
blue pixel. -/
def srcBlueRGBA : SourceImage := ⟨.rgba, bluePixelImg⟩

/-- A region result with a valid 12 by 12 rectangle and the text HI. -/
def regionHI : RegionResult := ⟨some ⟨0, 0, 12, 12⟩, some "HI"⟩

/-- A region result with a valid rectangle and the text YO. -/
def regionYO : RegionResult := ⟨some ⟨0, 0, 12, 12⟩, some "YO"⟩

/-- A region result whose dict lacks the bbox key. -/
def regionNoBbox : RegionResult := ⟨none, some "HI"⟩

/-- The default settings with transparency 0.5 and a red background. -/
def settingsHalfRed : Settings :=
  ⟨"arial", 16, ⟨0, 0, 0⟩, ⟨255, 0, 0⟩, 0, ⟨0, 0, 0⟩, 5, "center", mkRat 1 2, true⟩

/-- The per-channel alpha the spec prescribes for the erase fill:
round(255 * transparency), following the spec's words (the code uses
int(255 * transparency), which truncates). -/
def specClaimedAlpha (t : ℚ) : Nat := (round (255 * t)).toNat

/-- The default settings with auto_font_size off and font_size 21. -/
def settingsFixed : Settings :=
  ⟨"arial", 21, ⟨0, 0, 0⟩, ⟨255, 255, 255⟩, 0, ⟨0, 0, 0⟩, 5, "center", 1, false⟩

/-
Helper lemmas: the font cache never changes any computed value.
-/

/-- Under a coherent cache, _get_font returns exactly what the resolver
would produce. -/
theorem get_font_val {r : Resolve} {c : FontCache} (hc : Coherent r c)
    (fam : String) (sz : Nat) : (get_font r c fam sz).1 = r fam sz := by
  cases hl : cacheLookup c fam sz with
  | none => simp [get_font, hl]
  | some f => simp only [get_font, hl]; exact hc fam sz f hl

/-- _get_font keeps the cache coherent. -/
theorem get_font_coh {r : Resolve} {c : FontCache} (hc : Coherent r c)
    (fam : String) (sz : Nat) : Coherent r (get_font r c fam sz).2 := by
  cases hl : cacheLookup c fam sz with
  | some f => simpa [get_font, hl] using hc
  | none =>
    simp only [get_font, hl]
    intro fam2 sz2 f2 h2
    simp only [cacheLookup] at h2
    split at h2
    · next hkey =>
      cases h2
      rw [← hkey.1, ← hkey.2]
    · exact hc fam2 sz2 f2 h2

/-- The candidate scan computes the same best size as its cache-free
form and keeps the cache coherent. -/
theorem fontSizeLoop_ref (r : Resolve) (text : String) (w h : Int) (s : Settings) :
    ∀ (cands : List Nat) (c : FontCache) (best : Nat), Coherent r c →
      (fontSizeLoop r text w h s cands c best).1
          = pureFontLoop (fitsAt r text w h s) cands best
        ∧ Coherent r (fontSizeLoop r text w h s cands c best).2 := by
  intro cands
  induction cands with
  | nil => intro c best hc; exact ⟨rfl, hc⟩
  | cons size rest ih =>
    intro c best hc
    have hval := get_font_val hc s.font_family size
    have hcoh := get_font_coh hc s.font_family size
    simp only [fontSizeLoop, pureFontLoop, hval, fitsAt]
    by_cases hfit : fitTest (r s.font_family size) text w h s = true
    · simp only [hfit, if_true]
      exact ih _ size hcoh
    · simp only [hfit, if_false]
      exact ⟨rfl, hcoh⟩

/-- _calculate_optimal_font_size computes the same size as its
cache-free form and keeps the cache coherent. -/
theorem calculate_optimal_font_size_ref {r : Resolve} {c : FontCache}
    (hc : Coherent r c) (text : String) (w h : Int) (s : Settings) :
    (calculate_optimal_font_size r c text w h s).1
        = calculate_optimal_font_size_nocache r text w h s
      ∧ Coherent r (calculate_optimal_font_size r c text w h s).2 := by
  unfold calculate_optimal_font_size calculate_optimal_font_size_nocache
  split
  · exact ⟨rfl, hc⟩
  · exact fontSizeLoop_ref r text w h s _ c 8 hc

/-- The font size picked by _insert_text matches its cache-free form. -/
theorem insert_text_font_size_ref {r : Resolve} {c : FontCache}
    (hc : Coherent r c) (text : String) (w h : Int) (s : Settings) :
    (insert_text_font_size r c text w h s).1
        = insert_text_font_size_nocache r text w h s
      ∧ Coherent r (insert_text_font_size r c text w h s).2 := by
  unfold insert_text_font_size insert_text_font_size_nocache
  split
  · exact calculate_optimal_font_size_ref hc text w h s
  · exact ⟨rfl, hc⟩

/-- _insert_text computes the same image as its cache-free form and
keeps the cache coherent. -/
theorem insert_text_ref {r : Resolve} {c : FontCache} (hc : Coherent r c)
    (d : DrawBackend) (img : Img) (bb : Rect) (text : String) (s : Settings) :
    (insert_text r d c img bb text s).1 = insert_text_nocache r d img bb text s
      ∧ Coherent r (insert_text r d c img bb text s).2 := by
  by_cases hb : isBlank text = true
  · constructor
    · simp [insert_text, insert_text_nocache, hb]
    · simpa [insert_text, hb] using hc
  · obtain ⟨hsz, hszc⟩ :=
      insert_text_font_size_ref hc text (bb.x2 - bb.x1) (bb.y2 - bb.y1) s
    have hval := get_font_val hszc s.font_family
      (insert_text_font_size r c text (bb.x2 - bb.x1) (bb.y2 - bb.y1) s).1
    have hcoh2 := get_font_coh hszc s.font_family
      (insert_text_font_size r c text (bb.x2 - bb.x1) (bb.y2 - bb.y1) s).1
    rw [hsz] at hval hcoh2
    constructor
    · simp only [insert_text, insert_text_nocache, hb, if_false, hsz, hval]
      by_cases hsw : s.stroke_width > 0
      · simp [hsw]
      · simp [hsw]
    · simp only [insert_text, hb, if_false, hsz]
      by_cases hsw : s.stroke_width > 0
      · simpa [hsw] using hcoh2
      · simpa [hsw] using hcoh2

/-- _process_text_region computes the same result as its cache-free form
and keeps the cache coherent. -/
theorem process_text_region_ref {r : Resolve} {c : FontCache}
    (hc : Coherent r c) (d : DrawBackend) (img : Img) (res : RegionResult)
    (s : Settings) :
    (process_text_region r d c img res s).1
        = process_text_region_nocache r d img res s
      ∧ Coherent r (process_text_region r d c img res s).2 := by
  unfold process_text_region process_text_region_nocache
  cases res.bbox with
  | none => exact ⟨rfl, hc⟩
  | some bb =>
    cases res.translated_text with
    | none => exact ⟨rfl, hc⟩
    | some text =>
      dsimp only
      split
      · exact ⟨rfl, hc⟩
      · exact insert_text_ref hc d (inpaint_region img bb s) bb text s

/-- The region loop computes the same result as its cache-free form and
keeps the cache coherent. -/
theorem inpaintLoop_ref (r : Resolve) (d : DrawBackend) (s : Settings) :
    ∀ (results : List RegionResult) (img : Img) (c : FontCache), Coherent r c →
      (inpaintLoop r d s results img c).1 = inpaintLoop_nocache r d s results img
        ∧ Coherent r (inpaintLoop r d s results img c).2 := by
  intro results
  induction results with
  | nil => intro img c hc; exact ⟨rfl, hc⟩
  | cons res rest ih =>
    intro img c hc
    by_cases hb : isBlank (res.translated_text.getD "") = true
    · simp only [inpaintLoop, inpaintLoop_nocache, hb, if_true]
      exact ih img c hc
    · obtain ⟨hv, hcoh⟩ := process_text_region_ref hc d img res s
      rcases hp : process_text_region r d c img res s with ⟨v, c2⟩
      rw [hp] at hv hcoh
      simp only [inpaintLoop, inpaintLoop_nocache, hb, if_false, hp, ← hv]
      cases v with
      | ok img2 => exact ih img2 c2 hcoh
      | error e => exact ⟨rfl, hcoh⟩

/-- inpaint_and_replace_text computes the same result as its cache-free
form and keeps the cache coherent. -/
theorem inpaint_and_replace_text_ref {r : Resolve} {c : FontCache}
    (hc : Coherent r c) (d : DrawBackend) (src : SourceImage)
    (results : List RegionResult) (ts : Option SettingsOverride) :
    (inpaint_and_replace_text r d c src results ts).1
        = inpaint_and_replace_text_nocache r d src results ts
      ∧ Coherent r (inpaint_and_replace_text r d c src results ts).2 := by
  unfold inpaint_and_replace_text inpaint_and_replace_text_nocache
  split
  · exact ⟨rfl, hc⟩
  · obtain ⟨hv, hcoh⟩ :=
      inpaintLoop_ref r d (effective_settings ts) results src.rgb c hc
    rcases hp : inpaintLoop r d (effective_settings ts) results src.rgb c with ⟨v, c2⟩
    rw [hp] at hv hcoh
    simp only [hp, ← hv]
    cases v with
    | ok img => exact ⟨rfl, hcoh⟩
    | error e => exact ⟨rfl, hcoh⟩

/-
Helper lemmas for the candidate scan of the font-size solver.
-/

/-- Unfolding equation of the scan at a cons cell. -/
theorem pureFontLoop_cons (F : Nat → Bool) (size : Nat) (rest : List Nat)
    (best : Nat) :
    pureFontLoop F (size :: rest) best
      = if F size = true then pureFontLoop F rest size else best := rfl

/-- The scan returns its initial best or a scanned candidate that passed
the fit test. -/
theorem pureFontLoop_mem (F : Nat → Bool) :
    ∀ (l : List Nat) (best : Nat),
      pureFontLoop F l best = best
      ∨ (pureFontLoop F l best ∈ l ∧ F (pureFontLoop F l best) = true) := by
  intro l
  induction l with
  | nil => intro best; exact Or.inl rfl
  | cons size rest ih =>
    intro best
    by_cases hF : F size = true
    · rw [pureFontLoop_cons, if_pos hF]
      rcases ih size with h | h
      · exact Or.inr ⟨by rw [h]; exact List.mem_cons_self size rest, by rw [h]; exact hF⟩
      · exact Or.inr ⟨List.mem_cons_of_mem size h.1, h.2⟩
    · rw [pureFontLoop_cons, if_neg hF]
      exact Or.inl rfl

/-- When the scan starts past a fitting best by one step, it returns a
fitting size at least the best, and the candidate right after the result
fails the fit test whenever it lies within the scanned range. -/
theorem pureFontLoop_stop (F : Nat → Bool) :
    ∀ (n a best : Nat), F best = true → best + 2 = a →
      F (pureFontLoop F (List.range' a n 2) best) = true
      ∧ best ≤ pureFontLoop F (List.range' a n 2) best
      ∧ (pureFontLoop F (List.range' a n 2) best + 2 < a + 2 * n →
          F (pureFontLoop F (List.range' a n 2) best + 2) = false) := by
  intro n
  induction n with
  | zero =>
    intro a best hF hba
    have hnil : pureFontLoop F (List.range' a 0 2) best = best := rfl
    rw [hnil]
    exact ⟨hF, Nat.le_refl best, fun hlt => by omega⟩
  | succ n ih =>
    intro a best hF hba
    rw [List.range'_succ, pureFontLoop_cons]
    by_cases hFa : F a = true
    · rw [if_pos hFa]
      obtain ⟨h1, h2, h3⟩ := ih (a + 2) a hFa rfl
      exact ⟨h1, by omega, fun hlt => h3 (by omega)⟩
    · rw [if_neg hFa]
      refine ⟨hF, Nat.le_refl best, fun hlt => ?_⟩
      rw [hba]
      exact Bool.eq_false_iff.mpr hFa

/-
Helper lemmas for pixel-level reasoning about the raster operations.
-/

/-- Indexing into a row mapped with an x-coordinate-aware function. -/
theorem mapRowFrom_getElem (f : Nat → RGB → RGB) :
    ∀ (l : List RGB) (i j : Nat),
      (mapRowFrom f i l)[j]? = (l[j]?).map (f (i + j)) := by
  intro l
  induction l with
  | nil => intro i j; simp [mapRowFrom]
  | cons p ps ih =>
    intro i j
    cases j with
    | zero => simp [mapRowFrom]
    | succ j =>
      simp only [mapRowFrom, List.getElem?_cons_succ, ih (i + 1) j]
      have hk : i + 1 + j = i + (j + 1) := by omega
      rw [hk]

/-- Indexing into the rows mapped with a coordinate-aware function. -/
theorem mapRowsFrom_getElem (f : Nat → Nat → RGB → RGB) :
    ∀ (rows : List (List RGB)) (i j : Nat),
      (mapRowsFrom f i rows)[j]?
        = (rows[j]?).map (mapRowFrom (fun x p => f x (i + j) p) 0) := by
  intro rows
  induction rows with
  | nil => intro i j; simp [mapRowsFrom]
  | cons row rest ih =>
    intro i j
    cases j with
    | zero => simp [mapRowsFrom]
    | succ j =>
      simp only [mapRowsFrom, List.getElem?_cons_succ, ih (i + 1) j]
      have hk : i + 1 + j = i + (j + 1) := by omega
      rw [hk]

/-- The pixel of a mapped image is the mapped pixel. -/
theorem getPx_mapPixels (img : Img) (f : Nat → Nat → RGB → RGB) (x y : Nat) :
    (img.mapPixels f).getPx x y = (img.getPx x y).map (f x y) := by
  unfold Img.mapPixels Img.getPx
  rw [mapRowsFrom_getElem]
  cases hrow : img.pixels[y]? with
  | none => rfl
  | some row =>
    show (mapRowFrom (fun x p => f x (0 + y) p) 0 row)[x]? = Option.map (f x y) row[x]?
    rw [mapRowFrom_getElem]
    simp

/-
Helper lemmas for the greedy word wrapper.
-/

/-- Unfolding equation of the wrap loop with no pending words. -/
theorem wrapLoop_nil (font : FontMetrics) (maxW : Int) (cur : List String) :
    wrapLoop font maxW [] cur = if cur.isEmpty then [] else [cur] := rfl

/-- Unfolding equation of the wrap loop at the next word. -/
theorem wrapLoop_cons (font : FontMetrics) (maxW : Int) (w : String)
    (rest cur : List String) :
    wrapLoop font maxW (w :: rest) cur
      = if lineWidth font (" ".intercalate (cur ++ [w])) ≤ maxW then
          wrapLoop font maxW rest (cur ++ [w])
        else if cur.isEmpty then [w] :: wrapLoop font maxW rest []
        else cur :: wrapLoop font maxW rest [w] := rfl

/-- The wrapper never loses, duplicates or reorders words: flattening
the produced lines gives back the pending words after the current line. -/
theorem wrapLoop_flatten (font : FontMetrics) (maxW : Int) :
    ∀ (words cur : List String),
      (wrapLoop font maxW words cur).flatten = cur ++ words := by
  intro words
  induction words with
  | nil =>
    intro cur
    rw [wrapLoop_nil]
    cases cur with
    | nil => simp
    | cons c cs => simp
  | cons w rest ih =>
    intro cur
    rw [wrapLoop_cons]
    by_cases hfit : lineWidth font (" ".intercalate (cur ++ [w])) ≤ maxW
    · rw [if_pos hfit, ih (cur ++ [w])]
      simp
    · rw [if_neg hfit]
      cases cur with
      | nil => simp [ih]
      | cons c cs => simp [ih]

/-- Every line the wrapper emits is a single word or passed the width
test as a whole, provided the current line satisfies the same invariant. -/
theorem wrapLoop_lines_ok (font : FontMetrics) (maxW : Int) :
    ∀ (words cur : List String),
      (cur = [] ∨ cur.length = 1 ∨ lineWidth font (" ".intercalate cur) ≤ maxW) →
      ∀ line ∈ wrapLoop font maxW words cur,
        line.length = 1 ∨ lineWidth font (" ".intercalate line) ≤ maxW := by
  intro words
  induction words with
  | nil =>
    intro cur hcur line hline
    rw [wrapLoop_nil] at hline
    cases cur with
    | nil => simp at hline
    | cons c cs =>
      simp only [List.isEmpty_cons, Bool.false_eq_true, if_false,
        List.mem_singleton] at hline
      subst hline
      rcases hcur with h | h | h
      · exact absurd h (by simp)
      · exact Or.inl h
      · exact Or.inr h
  | cons w rest ih =>
    intro cur hcur line hline
    rw [wrapLoop_cons] at hline
    by_cases hfit : lineWidth font (" ".intercalate (cur ++ [w])) ≤ maxW
    · rw [if_pos hfit] at hline
      exact ih (cur ++ [w]) (Or.inr (Or.inr hfit)) line hline
    · rw [if_neg hfit] at hline
      cases cur with
      | nil =>
        simp only [List.isEmpty_nil, if_true, List.mem_cons] at hline
        rcases hline with h | h
        · subst h; exact Or.inl rfl
        · exact ih [] (Or.inl rfl) line h
      | cons c cs =>
        simp only [List.isEmpty_cons, Bool.false_eq_true, if_false,
          List.mem_cons] at hline
        rcases hline with h | h
        · subst h
          rcases hcur with h2 | h2 | h2
          · exact absurd h2 (by simp)
          · exact Or.inl h2
          · exact Or.inr h2
        · exact ih [w] (Or.inr (Or.inl rfl)) line h

/-- Unfolding equation of the region loop at a cons cell. -/
theorem inpaintLoop_cons (r : Resolve) (d : DrawBackend) (s : Settings)
    (res : RegionResult) (rest : List RegionResult) (img : Img) (c : FontCache) :
    inpaintLoop r d s (res :: rest) img c
      = if isBlank (res.translated_text.getD "") = true then
          inpaintLoop r d s rest img c
        else
          match process_text_region r d c img res s with
          | (.ok img2, c2) => inpaintLoop r d s rest img2 c2
          | (.error e, c2) => (.error e, c2) := rfl

/-
The claims.
-/

/-- Claim C7: with the auto-font-size flag off, the font size used for
rendering by _insert_text is exactly the requested settings font_size,
unmodified, and the font cache is not even consulted. -/
theorem claim7_fixed_font_size (r : Resolve) (c : FontCache) (text : String)
    (w h : Int) (s : Settings) (hauto : s.auto_font_size = false) :
    (insert_text_font_size r c text w h s).1 = s.font_size
    ∧ (insert_text_font_size r c text w h s).2 = c := by
  unfold insert_text_font_size
  rw [if_neg (by simp [hauto])]
  exact ⟨rfl, rfl⟩

/-- Witness for claim C7 at a concrete style with auto_font_size false
and font_size 21. -/
theorem claim7_fixed_font_size_witness :
    settingsFixed.auto_font_size = false
    ∧ (insert_text_font_size resolveLen [] "HI" 100 40 settingsFixed).1 = 21 := by
  have h := claim7_fixed_font_size resolveLen [] "HI" 100 40 settingsFixed (by decide)
  exact ⟨by decide, h.1⟩

/-- Claim C8: a region whose rectangle is under 10 pixels wide or tall is
skipped entirely by _process_text_region: no erase, no draw, no error,
the image and the font cache returned untouched. -/
theorem claim8_small_region_skip (r : Resolve) (d : DrawBackend) (c : FontCache)
    (img : Img) (bb : Rect) (text : String) (s : Settings)
    (hsmall : bb.x2 - bb.x1 < 10 ∨ bb.y2 - bb.y1 < 10) :
    process_text_region r d c img ⟨some bb, some text⟩ s = (.ok img, c) := by
  unfold process_text_region
  dsimp only
  rw [if_pos hsmall]

/-- Witness for claim C8 at a concrete 5-pixel-wide region. -/
theorem claim8_small_region_skip_witness :
    ((5 : Int) - 0 < 10 ∨ (20 : Int) - 0 < 10)
    ∧ process_text_region resolveLen pureDraw [] bluePixelImg
        ⟨some ⟨0, 0, 5, 20⟩, some "HI"⟩ get_default_settings
        = (.ok bluePixelImg, []) :=
  ⟨Or.inl (by decide),
   claim8_small_region_skip resolveLen pureDraw [] bluePixelImg ⟨0, 0, 5, 20⟩ "HI"
     get_default_settings (Or.inl (by decide))⟩

/-- Claim C9: the engine fills defaults for missing keys by updating an
internal copy of the default settings with the caller's entries; every
key the caller supplies wins, every missing key falls back to the
documented default, and the caller's dictionary is consumed read-only
(the merge builds a new record from the fresh defaults). -/
theorem claim9_settings_merge (o : SettingsOverride) :
    effective_settings (some o)
      = ⟨o.font_family.getD "arial", o.font_size.getD 16, o.font_color.getD ⟨0, 0, 0⟩,
         o.bg_color.getD ⟨255, 255, 255⟩, o.stroke_width.getD 0,
         o.stroke_color.getD ⟨0, 0, 0⟩, o.padding.getD 5, o.alignment.getD "center",
         o.transparency.getD 1, o.auto_font_size.getD true⟩
    ∧ effective_settings none = get_default_settings :=
  ⟨rfl, rfl⟩

/-- Claim C10: with an empty results list the page compositor returns the
image decoded in its original mode (no RGB conversion), while any
nonempty results list is composited over the RGB conversion, so for a
non-RGB source the channel counts of the two paths differ. -/
theorem claim10_mode_convert (r : Resolve) (d : DrawBackend) (c c2 : FontCache)
    (src : SourceImage) (ts : Option SettingsOverride) (res : RegionResult)
    (rest : List RegionResult) (out : NDArray)
    (hmode : src.mode ≠ Mode.rgb)
    (hok : inpaint_and_replace_text r d c src (res :: rest) ts = (.ok out, c2)) :
    (inpaint_and_replace_text r d c src [] ts).1 = .ok ⟨src.mode.channels, src.rgb⟩
    ∧ out.channels = 3
    ∧ src.mode.channels ≠ 3 := by
  refine ⟨rfl, ?_, ?_⟩
  · unfold inpaint_and_replace_text at hok
    simp only [List.isEmpty_cons, Bool.false_eq_true, if_false] at hok
    rcases hp : inpaintLoop r d (effective_settings ts) (res :: rest) src.rgb c
      with ⟨v, c3⟩
    rw [hp] at hok
    cases v with
    | ok img =>
      have h1 : (Except.ok (⟨3, img⟩ : NDArray) : Except String NDArray) = .ok out :=
        congrArg Prod.fst hok
      have h2 := Except.ok.inj h1
      rw [← h2]
    | error e => exact absurd (congrArg Prod.fst hok) (by simp)
  · cases hm : src.mode with
    | rgb => exact absurd hm hmode
    | rgba => simp [Mode.channels]
    | lum => simp [Mode.channels]
    | pal => simp [Mode.channels]

/-- Witness for claim C10 at an RGBA source: 4 channels on the empty
path, 3 on the nonempty path. -/
theorem claim10_mode_convert_witness :
    srcBlueRGBA.mode ≠ Mode.rgb
    ∧ (inpaint_and_replace_text resolveLen pureDraw [] srcBlueRGBA [] none).1
        = .ok ⟨srcBlueRGBA.mode.channels, srcBlueRGBA.rgb⟩
    ∧ (⟨3, bluePixelImg⟩ : NDArray).channels = 3
    ∧ srcBlueRGBA.mode.channels ≠ 3 := by
  have h := claim10_mode_convert resolveLen pureDraw [] [] srcBlueRGBA none
    ⟨some ⟨0, 0, 12, 12⟩, some " "⟩ [] ⟨3, bluePixelImg⟩ (by decide) rfl
  exact ⟨by decide, h.1, h.2.1, h.2.2⟩

/-- Counterexample to claim C1: _process_text_region on a blank-text
region of valid size does not leave the image unchanged -- it erases the
rectangle first (the blank check lives in _insert_text, after the
erase), here turning the blue pixel white. -/
theorem claim1_blank_region_counterexample :
    ¬ ((process_text_region resolveLen pureDraw [] bluePixelImg
          ⟨some ⟨0, 0, 12, 12⟩, some " "⟩ get_default_settings).1
        = .ok bluePixelImg) := by
  intro hctr
  have hval : (process_text_region resolveLen pureDraw [] bluePixelImg
      ⟨some ⟨0, 0, 12, 12⟩, some " "⟩ get_default_settings).1
      = .ok (⟨[[⟨255, 255, 255⟩]]⟩ : Img) := rfl
  have himg := Except.ok.inj (hval.symm.trans hctr)
  exact absurd himg (by decide)

/-- Claim C1 amended: blank replacement text is skipped entirely only at
the page level -- inpaint_and_replace_text never invokes the region
compositor for it, so the image is untouched there; _process_text_region
itself, applied to a blank-text region of valid size, erases the
rectangle with the background fill and then draws nothing. -/
theorem claim1_blank_region_amended (r : Resolve) (d : DrawBackend)
    (c : FontCache) (img : Img) (bb : Rect) (text : String) (s : Settings)
    (rest : List RegionResult) (obb : Option Rect)
    (hblank : isBlank text = true) :
    inpaintLoop r d s (⟨obb, some text⟩ :: rest) img c
      = inpaintLoop r d s rest img c
    ∧ (¬ (bb.x2 - bb.x1 < 10 ∨ bb.y2 - bb.y1 < 10) →
        process_text_region r d c img ⟨some bb, some text⟩ s
          = (.ok (inpaint_region img bb s), c)) := by
  constructor
  · rw [inpaintLoop_cons, if_pos (by simpa using hblank)]
  · intro hsize
    unfold process_text_region
    dsimp only
    rw [if_neg hsize]
    unfold insert_text
    rw [if_pos hblank]

/-- Witness for the amended claim C1: a single-space region over the blue
pixel is skipped by the page loop, and composited alone it equals the
bare erase. -/
theorem claim1_blank_region_witness :
    isBlank " " = true
    ∧ ¬ (((12 : Int) - 0 < 10) ∨ ((12 : Int) - 0 < 10))
    ∧ inpaintLoop resolveLen pureDraw get_default_settings
        [⟨some ⟨0, 0, 12, 12⟩, some " "⟩] bluePixelImg []
        = inpaintLoop resolveLen pureDraw get_default_settings [] bluePixelImg []
    ∧ process_text_region resolveLen pureDraw [] bluePixelImg
        ⟨some ⟨0, 0, 12, 12⟩, some " "⟩ get_default_settings
        = (.ok (inpaint_region bluePixelImg ⟨0, 0, 12, 12⟩ get_default_settings), []) := by
  refine ⟨by decide, by decide, ?_, ?_⟩
  · exact (claim1_blank_region_amended resolveLen pureDraw [] bluePixelImg
      ⟨0, 0, 12, 12⟩ " " get_default_settings [] (some ⟨0, 0, 12, 12⟩) (by decide)).1
  · exact (claim1_blank_region_amended resolveLen pureDraw [] bluePixelImg
      ⟨0, 0, 12, 12⟩ " " get_default_settings [] (some ⟨0, 0, 12, 12⟩) (by decide)).2
      (by decide)

/-- Counterexample to claim C2: a render exception in the first region is
not caught -- the page composite returns the error instead of a
best-effort image, and the second region is never reached. -/
theorem claim2_exception_counterexample :
    (inpaint_and_replace_text resolveLen failDraw [] srcBlueRGBA
        [regionHI, regionYO] none).1 = .error "render failed" := rfl

/-- Claim C2 amended: there is no per-region exception handling in the
compositor; an exception raised while processing one region propagates
out of inpaint_and_replace_text, aborting the remaining regions, and no
image is returned. -/
theorem claim2_exception_amended (r : Resolve) (d : DrawBackend)
    (c c2 : FontCache) (src : SourceImage) (res : RegionResult)
    (rest : List RegionResult) (ts : Option SettingsOverride) (e : String)
    (hb : isBlank (res.translated_text.getD "") = false)
    (hp : process_text_region r d c src.rgb res (effective_settings ts)
          = (.error e, c2)) :
    (inpaint_and_replace_text r d c src (res :: rest) ts).1 = .error e := by
  unfold inpaint_and_replace_text
  simp only [List.isEmpty_cons, Bool.false_eq_true, if_false]
  rw [inpaintLoop_cons, if_neg (by simp [hb]), hp]

/-- Witness for the amended claim C2: the failing draw backend makes the
first region error out and the page composite returns that error. -/
theorem claim2_exception_witness :
    isBlank (regionHI.translated_text.getD "") = false
    ∧ (inpaint_and_replace_text resolveLen failDraw [] srcBlueRGBA
        [regionHI, regionYO] none).1 = .error "render failed" :=
  ⟨by decide,
   claim2_exception_amended resolveLen failDraw []
     [(("arial", 8), resolveLen "arial" 8)] srcBlueRGBA regionHI [regionYO]
     none "render failed" (by decide) rfl⟩

/-- Counterexample to claim C4: the code erases with per-channel alpha
int(255 * transparency) (truncation), not round(255 * transparency); at
transparency 0.5 over pure blue with a red fill the painted pixel is
(127, 0, 128), while blending at the claimed alpha round(255 * 0.5) = 128
would give (128, 0, 127). -/
theorem claim4_erase_blend_counterexample :
    inpaint_region bluePixelImg ⟨0, 0, 0, 0⟩ settingsHalfRed
        = ⟨[[⟨127, 0, 128⟩]]⟩
    ∧ specClaimedAlpha settingsHalfRed.transparency = 128
    ∧ alphaCompositePixel settingsHalfRed.bg_color 128 ⟨0, 0, 255⟩ = ⟨128, 0, 127⟩
    ∧ (⟨127, 0, 128⟩ : RGB) ≠ ⟨128, 0, 127⟩ := by
  refine ⟨by decide, ?_, by decide, by decide⟩
  show (round ((255 : ℚ) * mkRat 1 2)).toNat = 128
  rw [Rat.mkRat_eq_div, round_eq]
  have h : (255 : ℚ) * (((1 : ℤ) : ℚ) / ((2 : ℕ) : ℚ)) + 1 / 2 = 128 := by
    push_cast
    norm_num
  rw [h, show ((128 : ℚ)) = ((128 : ℤ) : ℚ) by norm_num, Int.floor_intCast]
  rfl

/-- Claim C4 amended: _inpaint_region erases each pixel of the rectangle
by alpha-compositing the background color at alpha
int(255 * transparency) (truncation) when transparency is below 1.0, and
flat-overwrites it at transparency 1.0; pixels outside the rectangle are
unchanged on both paths; at transparency 0.5 over pure blue with red
fill the result is the exact PIL composite (127, 0, 128). -/
theorem claim4_erase_blend_amended (img : Img) (bb : Rect) (s : Settings)
    (x y : Nat) :
    ((inpaint_region img bb s).getPx x y
      = (img.getPx x y).map (fun p =>
          if s.transparency < 1 then
            alphaCompositePixel s.bg_color
              (if inRect bb x y then alpha255 s.transparency else 0) p
          else if inRect bb x y then s.bg_color else p))
    ∧ inpaint_region bluePixelImg ⟨0, 0, 0, 0⟩ settingsHalfRed
        = ⟨[[⟨127, 0, 128⟩]]⟩
    ∧ alpha255 settingsHalfRed.transparency = 127
    ∧ alphaCompositePixel ⟨255, 0, 0⟩ 127 ⟨0, 0, 255⟩ = ⟨127, 0, 128⟩ := by
  refine ⟨?_, by decide, by decide, by decide⟩
  by_cases ht : s.transparency < 1
  · have hmap : (fun p =>
        if s.transparency < 1 then
          alphaCompositePixel s.bg_color
            (if inRect bb x y then alpha255 s.transparency else 0) p
        else if inRect bb x y then s.bg_color else p)
        = (fun p => alphaCompositePixel s.bg_color
            (if inRect bb x y then alpha255 s.transparency else 0) p) := by
      funext p
      rw [if_pos ht]
    rw [hmap]
    unfold inpaint_region
    rw [if_pos ht, getPx_mapPixels]
  · have hmap : (fun p =>
        if s.transparency < 1 then
          alphaCompositePixel s.bg_color
            (if inRect bb x y then alpha255 s.transparency else 0) p
        else if inRect bb x y then s.bg_color else p)
        = (fun p => if inRect bb x y then s.bg_color else p) := by
      funext p
      rw [if_neg ht]
    rw [hmap]
    unfold inpaint_region
    rw [if_neg ht, getPx_mapPixels]

/-- Claim C3: the only state carried between page composites is the font
cache, and under a coherent cache (any cache grown from a fresh
TextInpainter) a second composite with identical arguments returns the
byte-identical raster, while a repeat composite after editing the region
list equals the single composite of the edited list -- every call starts
from the source image, never from a previously painted buffer. -/
theorem claim3_idempotent_recomposite (r : Resolve) (d : DrawBackend)
    (src : SourceImage) (ts : Option SettingsOverride)
    (rs1 rs2 : List RegionResult) (c0 : FontCache) (hc : Coherent r c0) :
    (inpaint_and_replace_text r d
        (inpaint_and_replace_text r d c0 src rs1 ts).2 src rs1 ts).1
      = (inpaint_and_replace_text r d c0 src rs1 ts).1
    ∧ (inpaint_and_replace_text r d
        (inpaint_and_replace_text r d c0 src rs1 ts).2 src rs2 ts).1
      = (inpaint_and_replace_text r d c0 src rs2 ts).1 := by
  obtain ⟨h1, hcoh1⟩ := inpaint_and_replace_text_ref hc d src rs1 ts
  exact ⟨(inpaint_and_replace_text_ref hcoh1 d src rs1 ts).1.trans h1.symm,
    (inpaint_and_replace_text_ref hcoh1 d src rs2 ts).1.trans
      ((inpaint_and_replace_text_ref hc d src rs2 ts).1.symm)⟩

/-- Witness for claim C3: recompositing the blue pixel page with the same
region, and with an edited region, from the warmed cache. -/
theorem claim3_idempotent_recomposite_witness :
    (inpaint_and_replace_text resolveLen pureDraw
        (inpaint_and_replace_text resolveLen pureDraw [] srcBlueRGBA [regionHI] none).2
        srcBlueRGBA [regionHI] none).1
      = (inpaint_and_replace_text resolveLen pureDraw [] srcBlueRGBA [regionHI] none).1
    ∧ (inpaint_and_replace_text resolveLen pureDraw
        (inpaint_and_replace_text resolveLen pureDraw [] srcBlueRGBA [regionHI] none).2
        srcBlueRGBA [regionYO] none).1
      = (inpaint_and_replace_text resolveLen pureDraw [] srcBlueRGBA [regionYO] none).1 :=
  claim3_idempotent_recomposite resolveLen pureDraw srcBlueRGBA none
    [regionHI] [regionYO] [] (fun _fam _sz _f hf => Option.noConfusion hf)

/-- Claim C6: the wrapper never emits a line wider than maxWidth unless
that line is a single word placed alone (a word is never split); the
wrap of the empty string is the empty string; and the words of the
output are exactly the whitespace-split words of the input, in order. -/
theorem claim6_wrap (font : FontMetrics) (maxW : Int) (text : String)
    (line : List String) (_hW : 0 < maxW)
    (hline : line ∈ wrapLines font text maxW) :
    wrap_text font "" maxW = ""
    ∧ (wrapLines font text maxW).flatten = pySplit text
    ∧ (line.length = 1 ∨ lineWidth font (" ".intercalate line) ≤ maxW) := by
  refine ⟨rfl, ?_, ?_⟩
  · unfold wrapLines
    rw [wrapLoop_flatten]
    rfl
  · exact wrapLoop_lines_ok font maxW (pySplit text) [] (Or.inl rfl) line hline

/-- Witness for claim C6 at a ten-pixel-per-character font, width 110:
the first wrapped line holds two words and fits. -/
theorem claim6_wrap_witness :
    (0 : Int) < 110
    ∧ ["hello", "world"] ∈ wrapLines (resolveLen "arial" 10) "hello world foo" 110
    ∧ wrap_text (resolveLen "arial" 10) "" 110 = ""
    ∧ (wrapLines (resolveLen "arial" 10) "hello world foo" 110).flatten
        = pySplit "hello world foo"
    ∧ (["hello", "world"].length = 1
        ∨ lineWidth (resolveLen "arial" 10) (" ".intercalate ["hello", "world"]) ≤ 110) := by
  have h := claim6_wrap (resolveLen "arial" 10) 110 "hello world foo"
    ["hello", "world"] (by decide) (by decide)
  exact ⟨by decide, by decide, h.1, h.2.1, h.2.2⟩

/-- Claim C5: with auto-size on, the solver scans candidates 8, 10, ...
up to min(width // 2, height // 2, 48), keeps the last fitting candidate,
stops at the first fit failure, returns a value in [8, ceiling] whenever
the ceiling is at least 8, and returns the floor 8 when the ceiling is
below 8 or when the first candidate already fails. -/
theorem claim5_font_size_solver (r : Resolve) (c : FontCache) (text : String)
    (w h : Int) (s : Settings) (hc : Coherent r c) :
    (fontSizeCeiling w h < 8 → (calculate_optimal_font_size r c text w h s).1 = 8)
    ∧ 8 ≤ (calculate_optimal_font_size r c text w h s).1
    ∧ (8 ≤ fontSizeCeiling w h →
        ((calculate_optimal_font_size r c text w h s).1 : Int) ≤ fontSizeCeiling w h)
    ∧ ((calculate_optimal_font_size r c text w h s).1 ≠ 8 →
        fitsAt r text w h s (calculate_optimal_font_size r c text w h s).1 = true)
    ∧ (fitsAt r text w h s 8 = true →
        fitsAt r text w h s (calculate_optimal_font_size r c text w h s).1 = true)
    ∧ (fitsAt r text w h s 8 = true →
        (calculate_optimal_font_size r c text w h s).1 + 2 ∈ fontSizeCandidates w h →
        fitsAt r text w h s ((calculate_optimal_font_size r c text w h s).1 + 2)
          = false) := by
  have href := (calculate_optimal_font_size_ref hc text w h s).1
  rw [href]
  unfold calculate_optimal_font_size_nocache
  by_cases hM : fontSizeCeiling w h < 8
  · rw [if_pos hM]
    refine ⟨fun _ => rfl, Nat.le_refl 8, fun h8 => absurd h8 (by omega),
      fun hne => absurd rfl hne, fun hf => hf, fun hf hmem => ?_⟩
    exfalso
    have hn : (fontSizeCeiling w h - 6).toNat / 2 = 0 := by omega
    unfold fontSizeCandidates at hmem
    rw [hn] at hmem
    simp at hmem
  · rw [if_neg hM]
    obtain ⟨m, hm⟩ : ∃ m, (fontSizeCeiling w h - 6).toNat / 2 = m + 1 :=
      ⟨(fontSizeCeiling w h - 6).toNat / 2 - 1, by omega⟩
    have hcands : fontSizeCandidates w h = 8 :: List.range' 10 m 2 := by
      unfold fontSizeCandidates
      rw [hm, List.range'_succ]
    rw [hcands, pureFontLoop_cons]
    by_cases hF8 : fitsAt r text w h s 8 = true
    · rw [if_pos hF8]
      obtain ⟨hfit, hge, hstop⟩ :=
        pureFontLoop_stop (fitsAt r text w h s) m 10 8 hF8 rfl
      refine ⟨fun hlt => absurd hlt hM, hge, fun h8M => ?_,
        fun _ => hfit, fun _ => hfit, fun _ hmem => ?_⟩
      · rcases pureFontLoop_mem (fitsAt r text w h s) (List.range' 10 m 2) 8
          with hmm | hmm
        · rw [hmm]
          omega
        · obtain ⟨i, hi, hei⟩ := List.mem_range'.mp hmm.1
          omega
      · rcases List.mem_cons.mp hmem with he | hmem2
        · exact absurd he (by omega)
        · obtain ⟨i, hi, hei⟩ := List.mem_range'.mp hmem2
          exact hstop (by omega)
    · rw [if_neg hF8]
      exact ⟨fun hlt => absurd hlt hM, Nat.le_refl 8, fun h8M => by omega,
        fun hne => absurd rfl hne, fun hf => absurd hf hF8,
        fun hf _ => absurd hf hF8⟩

/-- Witness for claim C5 at a 100 by 40 rectangle with the default style
and a ten-pixel-per-character-at-size-ten metric: the solver picks 20,
the ceiling min(50, 20, 48). -/
theorem claim5_font_size_solver_witness :
    (calculate_optimal_font_size resolveLen [] "AAAA" 100 40
        get_default_settings).1 = 20
    ∧ 8 ≤ (calculate_optimal_font_size resolveLen [] "AAAA" 100 40
        get_default_settings).1
    ∧ ((calculate_optimal_font_size resolveLen [] "AAAA" 100 40
        get_default_settings).1 : Int) ≤ fontSizeCeiling 100 40
    ∧ fitsAt resolveLen "AAAA" 100 40 get_default_settings
        (calculate_optimal_font_size resolveLen [] "AAAA" 100 40
          get_default_settings).1 = true := by
  have h := claim5_font_size_solver resolveLen [] "AAAA" 100 40
    get_default_settings (fun _fam _sz _f hf => Option.noConfusion hf)
  exact ⟨by decide, h.2.1, h.2.2.1 (by decide), h.2.2.2.2.1 (by decide)⟩

end MangaInpaint
